import Mathlib

/-!
Shallow embedding of the core of the stori-expense-tracker backend
(packages/backend/internal: models, repository, services), together with
proofs about the embedded definitions.

Modelling conventions:
* Go `time.Time` is abstracted by the observations the core uses of it:
  `Unix()` (seconds, `Int`), `Format("2006-01")` (month string) and
  `IsZero()`.  `time.Now()` is passed in as an explicit parameter.
* Go `float64` amounts are modelled as `ℚ`; the arithmetic the code
  performs (sums, differences, one guarded division) is exact here.
* The DynamoDB table is a list of marshalled transaction records; the
  attribute-map codec is the identity on this representation.  A
  conditional `PutItem` succeeds or fails according to the record stored
  at the same (PK, SK) primary key, as in DynamoDB.
* Query results are returned in table order; none of the theorems below
  depends on the store's sort order.
-/

namespace Stori

/-- Abstraction of Go `time.Time` by the observations used in the core:
unix seconds, the `Format("2006-01")` month string, and `IsZero()`. -/
structure GoTime where
  unix : Int
  month : String
  isZero : Bool
  deriving DecidableEq

/-- Mirror of `models.Transaction` (internal/models/response.go): entity
fields, the six derived single-table keys, and bookkeeping metadata. -/
structure Transaction where
  id : String
  date : GoTime
  amount : ℚ
  description : String
  category : String
  txType : String
  userID : String
  PK : String
  SK : String
  GSI1PK : String
  GSI1SK : String
  GSI2PK : String
  GSI2SK : String
  createdAt : GoTime
  updatedAt : GoTime
  version : Int
  deriving DecidableEq

/-- DynamoDB `begins_with(s, pre)` on UTF-8 strings. -/
def beginsWith (pre s : String) : Bool :=
  List.isPrefixOf pre.data s.data

/-- Go `strings.ToUpper` (character-wise, as the code applies it to
ASCII category names). -/
def strToUpper (s : String) : String :=
  String.mk (s.data.map Char.toUpper)

/-- Mirror of `Transaction.GenerateKeys`: the primary key pair and the two
secondary-index key pairs, derived from the entity's current fields.
Note the sort keys use the literal prefix `TRANSACTION#`. -/
def Transaction.generateKeys (t : Transaction) : Transaction :=
  { t with
    PK := "USER#" ++ t.userID
    SK := "TRANSACTION#" ++ toString t.date.unix ++ "#" ++ t.id
    GSI1PK := "MONTH#" ++ t.date.month ++ "#" ++ t.userID
    GSI1SK := "TRANSACTION#" ++ toString t.date.unix
    GSI2PK := "CATEGORY#" ++ strToUpper t.category ++ "#" ++ t.userID
    GSI2SK := "TRANSACTION#" ++ toString t.date.unix }

/-- Mirror of `models.Transaction.Validate` (entity validation): returns
`some message` on the first failing check, `none` on success.  It checks
user id, amount, type, category and a non-zero date (it does not check
the description). -/
def Transaction.validate (t : Transaction) : Option String :=
  if t.userID = "" then some "user_id is required"
  else if t.amount = 0 then some "amount must be non-zero"
  else if ¬(t.txType = "income" ∨ t.txType = "expense") then
    some "type must be income or expense"
  else if t.category = "" then some "category is required"
  else if t.date.isZero then some "date is required"
  else none

/-- The single DynamoDB table, as the list of stored transaction records. -/
abbrev Table := List Transaction

/-- Two records collide iff they share the (PK, SK) primary key pair. -/
def sameKey (a b : Transaction) : Prop :=
  a.PK = b.PK ∧ a.SK = b.SK

instance : DecidablePred fun p : Transaction × Transaction => sameKey p.1 p.2 :=
  fun _ => by unfold sameKey; infer_instance

/-- Unconditional `PutItem`: upsert by primary key, as DynamoDB does. -/
def putItem (tbl : Table) (t : Transaction) : Table :=
  t :: tbl.filter (fun r => ¬(r.PK = t.PK ∧ r.SK = t.SK))

/-- Mirror of `CreateTransaction` (repository/dynamodb.go): marshal (which
regenerates the keys) and `PutItem` with condition
`attribute_not_exists(PK) AND attribute_not_exists(SK)`, i.e. no record
may already exist at the same primary key. -/
def createTransaction (tbl : Table) (t : Transaction) : Except String Table :=
  let item := t.generateKeys
  if tbl.any (fun r => r.PK = item.PK ∧ r.SK = item.SK) then
    Except.error "failed to create transaction"
  else
    Except.ok (item :: tbl)

/-- The user-partition query shared by `GetTransaction` and
`GetTransactionsByUser`: key condition
`PK = USER#userID AND begins_with(SK, "TX#")`.  Note the queried sort-key
prefix is the literal `TX#`. -/
def queryUserTx (tbl : Table) (userID : String) : List Transaction :=
  tbl.filter (fun r => r.PK = "USER#" ++ userID ∧ beginsWith "TX#" r.SK)

/-- Mirror of `GetTransaction`: query the whole user partition with
sort-key prefix `TX#` (no limit), then filter client-side by logical id;
`transaction not found` when nothing matches. -/
def getTransaction (tbl : Table) (userID transactionID : String) :
    Except String Transaction :=
  match (queryUserTx tbl userID).find? (fun r => r.id = transactionID) with
  | some t => Except.ok t
  | none => Except.error "transaction not found"

/-- Mirror of `GetTransactionsByUser` (repository): the same user-partition
query with a page limit (`Int.toNat` clamps a negative limit to 0). -/
def getTransactionsByUser (tbl : Table) (userID : String) (limit : Int) :
    List Transaction :=
  (queryUserTx tbl userID).take limit.toNat

/-- Mirror of `GetTransactionsByMonth` (repository): GSI1 query with key
condition `GSI1PK = MONTH#month#userID` and a page limit. -/
def getTransactionsByMonth (tbl : Table) (userID month : String) (limit : Int) :
    List Transaction :=
  (tbl.filter (fun r => r.GSI1PK = "MONTH#" ++ month ++ "#" ++ userID)).take
    limit.toNat

/-- Mirror of `UpdateTransaction` (repository): entity validation, re-read
via `GetTransaction`, overwrite of the caller's CreatedAt with the stored
one, UpdatedAt set to now, version incremented, keys regenerated, then a
`PutItem` conditioned on `version = :oldVersion` evaluated (as in
DynamoDB) against the record stored at the put item's own (PK, SK); a
failed condition is the `modified by another process` conflict. -/
def updateTransaction (tbl : Table) (t : Transaction) (now : GoTime) :
    Except String Table :=
  match t.validate with
  | some e => Except.error ("validation failed: " ++ e)
  | none =>
    match getTransaction tbl t.userID t.id with
    | Except.error e => Except.error ("transaction not found: " ++ e)
    | Except.ok existing =>
      let item :=
        ({ t with
            createdAt := existing.createdAt
            updatedAt := now
            version := existing.version + 1 } : Transaction).generateKeys
      match tbl.find? (fun r => r.PK = item.PK ∧ r.SK = item.SK) with
      | some current =>
        if current.version = existing.version then
          Except.ok (putItem tbl item)
        else
          Except.error "transaction was modified by another process, please retry"
      | none =>
        Except.error "transaction was modified by another process, please retry"

/-- Mirror of `models.MonthlyAnalytics`; the Go `map[string]float64`
category breakdown is modelled as an association list in first-insertion
order (Go map iteration order is unspecified; no theorem below depends on
the order, only on the multiset of entries). -/
structure MonthlyAnalytics where
  month : String
  totalIncome : ℚ
  totalExpense : ℚ
  balance : ℚ
  categoryBreakdown : List (String × ℚ)
  transactionCount : Nat
  deriving DecidableEq

/-- Upsert into the association-list model of a Go map of running sums. -/
def alistAdd (m : List (String × ℚ)) (k : String) (v : ℚ) :
    List (String × ℚ) :=
  match m with
  | [] => [(k, v)]
  | (k', v') :: rest =>
    if k' = k then (k', v' + v) :: rest else (k', v') :: alistAdd rest k v

/-- One iteration of the `GetMonthlyAnalytics` loop: count, add the signed
amount to the income or the expense total by type, and add the signed
amount to the per-category running sum. -/
def monthlyStep (a : MonthlyAnalytics) (tx : Transaction) : MonthlyAnalytics :=
  { a with
    transactionCount := a.transactionCount + 1
    totalIncome := if tx.txType = "income" then a.totalIncome + tx.amount
      else a.totalIncome
    totalExpense := if tx.txType = "income" then a.totalExpense
      else a.totalExpense + tx.amount
    categoryBreakdown := alistAdd a.categoryBreakdown tx.category tx.amount }

/-- The aggregation performed by `GetMonthlyAnalytics` over the fetched
collection of transactions, with `Balance = TotalIncome - TotalExpense`
computed after the loop. -/
def monthlyAnalyticsAgg (txs : List Transaction) (month : String) :
    MonthlyAnalytics :=
  let a := txs.foldl monthlyStep
    { month := month, totalIncome := 0, totalExpense := 0, balance := 0
      categoryBreakdown := [], transactionCount := 0 }
  { a with balance := a.totalIncome - a.totalExpense }

/-- Mirror of `GetMonthlyAnalytics` (repository): fetch the month's
transactions through GSI1 with limit 1000, then aggregate. -/
def getMonthlyAnalytics (tbl : Table) (userID month : String) :
    MonthlyAnalytics :=
  monthlyAnalyticsAgg (getTransactionsByMonth tbl userID month 1000) month

/-- Mirror of `models.CategoryBreakdown`. -/
structure CategoryBreakdown where
  category : String
  amount : ℚ
  percentage : ℚ
  count : Nat
  deriving DecidableEq

/-- Upsert into the association-list model of the Go
`map[string]models.CategoryBreakdown` used by the analytics service:
absent keys start from a zero breakdown, then the positive amount is
added and the count incremented. -/
def breakdownAdd (m : List CategoryBreakdown) (k : String) (v : ℚ) :
    List CategoryBreakdown :=
  match m with
  | [] => [{ category := k, amount := v, percentage := 0, count := 1 }]
  | b :: rest =>
    if b.category = k then
      { b with amount := b.amount + v, count := b.count + 1 } :: rest
    else
      b :: breakdownAdd rest k v

/-- Accumulator of the `GetFinancialSummary` loop. -/
structure SummaryAcc where
  totalIncome : ℚ
  totalExpenses : ℚ
  categoryMap : List CategoryBreakdown
  deriving DecidableEq

/-- One iteration of the `GetFinancialSummary` loop: income amounts are
added as is; expense amounts are negated ("convert to positive") into the
expense total and the per-category breakdown; any other type is ignored. -/
def summaryStep (a : SummaryAcc) (tx : Transaction) : SummaryAcc :=
  if tx.txType = "income" then
    { a with totalIncome := a.totalIncome + tx.amount }
  else if tx.txType = "expense" then
    { a with
      totalExpenses := a.totalExpenses + -tx.amount
      categoryMap := breakdownAdd a.categoryMap tx.category (-tx.amount) }
  else a

/-- Percentage pass shared by `GetFinancialSummary` and
`GetCategoryBreakdown`: each category's percentage is set to
`amount / total * 100` only when the expense total is positive, and is
left at its zero default otherwise (the division-by-zero guard). -/
def applyPercentages (total : ℚ) (m : List CategoryBreakdown) :
    List CategoryBreakdown :=
  m.map (fun b =>
    if 0 < total then { b with percentage := b.amount / total * 100 } else b)

/-- Mirror of `models.FinancialSummary` (the fields the service fills). -/
structure FinancialSummary where
  totalBalance : ℚ
  monthlyIncome : ℚ
  monthlyExpenses : ℚ
  availableMoney : ℚ
  savingsRate : ℚ
  categoryBreakdown : List CategoryBreakdown
  deriving DecidableEq

/-- The sort at the end of `GetFinancialSummary` (`sort.Slice` by category
name; Go's sort is unstable, but category keys are pairwise distinct in
the map's slice, so orderings agree). -/
def sortByCategory (l : List CategoryBreakdown) : List CategoryBreakdown :=
  l.insertionSort (fun a b => a.category < b.category)

/-- The aggregation performed by `GetFinancialSummary` over the fetched
collection: historical totals, balance, guarded savings rate, guarded
category percentages, sorted breakdown.  `MonthlyExpenses` is returned
negated ("keep negative for consistency"). -/
def financialSummaryAgg (txs : List Transaction) : FinancialSummary :=
  let a := txs.foldl summaryStep
    { totalIncome := 0, totalExpenses := 0, categoryMap := [] }
  let totalBalance := a.totalIncome - a.totalExpenses
  let savingsRate :=
    if 0 < a.totalIncome then totalBalance / a.totalIncome * 100 else 0
  { totalBalance := totalBalance
    monthlyIncome := a.totalIncome
    monthlyExpenses := -a.totalExpenses
    availableMoney := totalBalance
    savingsRate := savingsRate
    categoryBreakdown :=
      sortByCategory (applyPercentages a.totalExpenses a.categoryMap) }

/-- Mirror of `GetFinancialSummary` (analytics service): fetch ALL
historical transactions of the user through the user-partition query with
limit 1000, then aggregate. -/
def getFinancialSummary (tbl : Table) (userID : String) : FinancialSummary :=
  financialSummaryAgg (getTransactionsByUser tbl userID 1000)

/-- Accumulator of the `GetCategoryBreakdown` loop (expenses only). -/
structure BreakdownAcc where
  totalExpenses : ℚ
  categoryMap : List CategoryBreakdown
  deriving DecidableEq

/-- One iteration of the `GetCategoryBreakdown` loop: only expense
transactions contribute, with negated ("positive") amounts. -/
def breakdownStep (a : BreakdownAcc) (tx : Transaction) : BreakdownAcc :=
  if tx.txType = "expense" then
    { totalExpenses := a.totalExpenses + -tx.amount
      categoryMap := breakdownAdd a.categoryMap tx.category (-tx.amount) }
  else a

/-- The aggregation performed by `GetCategoryBreakdown` over the fetched
collection: per-category totals and counts with the guarded percentage
pass, in map order (no sort in this path). -/
def categoryBreakdownAgg (txs : List Transaction) : List CategoryBreakdown :=
  let a := txs.foldl breakdownStep { totalExpenses := 0, categoryMap := [] }
  applyPercentages a.totalExpenses a.categoryMap

/-- The expense total accumulated by the two breakdown loops. -/
def totalExpensesOf (txs : List Transaction) : ℚ :=
  ((txs.filter (fun t => t.txType = "expense")).map (fun t => -t.amount)).sum

/-- The sort at the end of the service's `GetTransactionsByUser`
(`sort.Slice` by `Date.After`, i.e. descending unix date). -/
def sortByDateDesc (l : List Transaction) : List Transaction :=
  l.insertionSort (fun a b => b.date.unix < a.date.unix)

/-- The limit defaulting common to the three transaction-service list
operations: a non-positive caller limit becomes 50. -/
def effectiveLimit (limit : Int) : Int :=
  if limit ≤ 0 then 50 else limit

/-- Mirror of the service `GetTransactionsByUser`: require a user id,
default the limit to 50, fetch one page, sort most-recent-first. -/
def svcGetTransactionsByUser (tbl : Table) (userID : String) (limit : Int) :
    Except String (List Transaction) :=
  if userID = "" then Except.error "userID is required"
  else
    Except.ok (sortByDateDesc
      (getTransactionsByUser tbl userID (effectiveLimit limit)))

/-- Mirror of the service `GetTransactionsByMonth`: require user id and
month, default the limit to 50, fetch one page (no sort). -/
def svcGetTransactionsByMonth (tbl : Table) (userID month : String)
    (limit : Int) : Except String (List Transaction) :=
  if userID = "" ∨ month = "" then Except.error "userID and month are required"
  else
    Except.ok (getTransactionsByMonth tbl userID month (effectiveLimit limit))

/-- Mirror of `GetTransactionsByCategory` (repository): GSI2 query with
key condition `GSI2PK = CATEGORY#UPPER(category)#userID` and a page
limit. -/
def getTransactionsByCategory (tbl : Table) (userID category : String)
    (limit : Int) : List Transaction :=
  (tbl.filter (fun r =>
    r.GSI2PK = "CATEGORY#" ++ strToUpper category ++ "#" ++ userID)).take
    limit.toNat

/-- Mirror of the service `GetTransactionsByCategory`: require user id and
category, default the limit to 50, fetch one page (no sort). -/
def svcGetTransactionsByCategory (tbl : Table) (userID category : String)
    (limit : Int) : Except String (List Transaction) :=
  if userID = "" ∨ category = "" then
    Except.error "userID and category are required"
  else
    Except.ok
      (getTransactionsByCategory tbl userID category (effectiveLimit limit))

/-- The mutation tail of the service `ValidateTransaction`: SUBSTITUTES
`now` for a zero date (rather than rejecting it), defaults CreatedAt,
sets UpdatedAt and defaults the version to 1. -/
def svcFinalize (now : GoTime) (t : Transaction) : Transaction :=
  let t := if t.date.isZero then { t with date := now } else t
  let t := if t.createdAt.isZero then { t with createdAt := now } else t
  let t := { t with updatedAt := now }
  if t.version = 0 then { t with version := 1 } else t

/-- The id-generation head of the service `ValidateTransaction`: a
missing id is replaced by the freshly generated one. -/
def svcGenID (genID : String) (t : Transaction) : Transaction :=
  if t.id = "" then { t with id := genID } else t

/-- Mirror of the service `ValidateTransaction`
(internal/services/transaction.go): generates a missing id, checks user
id, amount, category, type and description, then applies the
`svcFinalize` mutations (including the zero-date substitution).  Returns
the mutated transaction. -/
def svcValidateTransaction (genID : String) (now : GoTime) (t : Transaction) :
    Except String Transaction :=
  let t := svcGenID genID t
  if t.userID = "" then Except.error "user ID is required"
  else if t.amount = 0 then Except.error "amount cannot be zero"
  else if t.category = "" then Except.error "category is required"
  else if ¬(t.txType = "income" ∨ t.txType = "expense") then
    Except.error "type must be either income or expense"
  else if t.description = "" then Except.error "description is required"
  else Except.ok (svcFinalize now t)

/-- Mirror of the service `CreateTransaction`: service validation, key
generation, then the repository's conditional create. -/
def svcCreateTransaction (genID : String) (now : GoTime) (tbl : Table)
    (t : Transaction) : Except String Table :=
  match svcValidateTransaction genID now t with
  | Except.error e => Except.error ("validation failed: " ++ e)
  | Except.ok t' => createTransaction tbl t'.generateKeys

/-- Mirror of `models.CategoryOption`. -/
structure CategoryOption where
  label : String
  value : String
  deriving DecidableEq

/-- The label construction of `GetCategoryOptions`:
`strings.ToUpper(string(category[0])) + category[1:]`.  Indexing the
first byte of an empty string is an index-out-of-range runtime error,
modelled as `none`. -/
def categoryLabel (category : String) : Option String :=
  match category.data with
  | [] => none
  | c :: rest => some (String.mk (c.toUpper :: rest))

/-- The set of distinct categories used by a transaction collection, in
first-appearance order (models the Go `map[string]bool` key set; no
theorem below depends on the order). -/
def uniqueCategories (txs : List Transaction) : List String :=
  txs.foldl
    (fun acc t =>
      if acc.contains t.category then acc else acc ++ [t.category]) []

/-- The option-building loop of `GetCategoryOptions` over the distinct
categories, in order: one option per category; `none` (the
index-out-of-range runtime error) as soon as a label construction fails. -/
def buildOptions : List String → Option (List CategoryOption)
  | [] => some []
  | c :: cs =>
    match categoryLabel c with
    | none => none
    | some lb =>
      match buildOptions cs with
      | none => none
      | some rest => some ({ label := lb, value := c } :: rest)

/-- The option-building of `GetCategoryOptions` over the fetched
collection. -/
def categoryOptionsAgg (txs : List Transaction) : Option (List CategoryOption) :=
  buildOptions (uniqueCategories txs)

/-- Mirror of `GetCategoryOptions` (analytics service): fetch the user's
transactions (limit 1000), then build the options. -/
def getCategoryOptions (tbl : Table) (userID : String) :
    Option (List CategoryOption) :=
  categoryOptionsAgg (getTransactionsByUser tbl userID 1000)

/-- The per-item preparation inside `batchWriteTransactions`: regenerate
the keys and stamp CreatedAt/UpdatedAt with now, building the marshalled
put request. -/
def prepareTx (now : GoTime) (tx : Transaction) : Transaction :=
  ({ tx with createdAt := now, updatedAt := now } : Transaction).generateKeys

/-- Apply a list of unconditional puts in order. -/
def applyPuts (tbl : Table) (puts : List Transaction) : Table :=
  puts.foldl putItem tbl

/-- What one chunk's retry loop did: the request list of every
`BatchWriteItem` attempt in order, the `time.Sleep` durations (ms) in
order, and whether the chunk completed (false is the fatal
exhausted-retries error). -/
structure ChunkLog where
  submitted : List (List Transaction)
  sleeps : List Nat
  ok : Bool
  deriving DecidableEq

/-- The retry loop of `batchWriteTransactions`
(`for retry := 0; retry < maxRetries; retry++`), with
`fuel = maxRetries - retry` making the recursion structural.  Each
attempt submits `reqs`; the store (modelled by `unproc`, indexed by the
retry counter) reports a subset as unprocessed, and the rest are applied
as unconditional puts.  An empty unprocessed set breaks out; unprocessed
items on the last retry are the fatal error; otherwise only the
unprocessed subset is resubmitted after a `(retry+1) * 100` ms linear
backoff sleep. -/
def batchWriteLoop (unproc : Nat → List Transaction → List Transaction)
    (maxRetries : Nat) :
    Nat → Table → List Transaction → Table × ChunkLog
  | 0, tbl, _ => (tbl, { submitted := [], sleeps := [], ok := true })
  | fuel + 1, tbl, reqs =>
    let retry := maxRetries - (fuel + 1)
    let unp := unproc retry reqs
    let tbl' := applyPuts tbl (reqs.filter (fun r => !decide (r ∈ unp)))
    if unp.isEmpty then
      (tbl', { submitted := [reqs], sleeps := [], ok := true })
    else if fuel = 0 then
      (tbl', { submitted := [reqs], sleeps := [], ok := false })
    else
      let rest := batchWriteLoop unproc maxRetries fuel tbl' unp
      (rest.1,
        { submitted := reqs :: rest.2.submitted
          sleeps := (retry + 1) * 100 :: rest.2.sleeps
          ok := rest.2.ok })

/-- Mirror of `batchWriteTransactions`: prepare every item of the chunk,
then run the retry loop with `maxRetries = 3`. -/
def batchWriteTransactions (unproc : Nat → List Transaction → List Transaction)
    (now : GoTime) (tbl : Table) (chunk : List Transaction) :
    Table × ChunkLog :=
  batchWriteLoop unproc 3 3 tbl (chunk.map (prepareTx now))

/-- The chunking of `BatchCreateTransactions`
(`for i := 0; i < len; i += batchSize`): consecutive slices of at most
`n` items, in order. -/
def chunksOf (n : Nat) : List Transaction → List (List Transaction)
  | [] => []
  | x :: xs => (x :: xs.take (n - 1)) :: chunksOf n (xs.drop (n - 1))
termination_by l => l.length
decreasing_by
  simp only [List.length_cons, List.length_drop]
  omega

/-- Result of a bulk load: the final table, one log per chunk attempted,
and whether the whole load completed. -/
structure BatchRun where
  table : Table
  logs : List ChunkLog
  ok : Bool
  deriving DecidableEq

/-- The chunk loop of `BatchCreateTransactions`: each chunk in order is
written through `batchWriteTransactions` (the store behaviour `unproc`
additionally indexed by the chunk index); the first chunk whose retries
are exhausted aborts the loop with the fatal error, leaving every
earlier chunk's writes in place. -/
def batchChunkLoop (unproc : Nat → Nat → List Transaction → List Transaction)
    (now : GoTime) :
    List (List Transaction) → Nat → Table → BatchRun
  | [], _, tbl => { table := tbl, logs := [], ok := true }
  | c :: cs, i, tbl =>
    let step := batchWriteTransactions (unproc i) now tbl c
    if step.2.ok then
      let rest := batchChunkLoop unproc now cs (i + 1) step.1
      { table := rest.table, logs := step.2 :: rest.logs, ok := rest.ok }
    else
      { table := step.1, logs := [step.2], ok := false }

/-- Mirror of `BatchCreateTransactions`: partition the input into chunks
of `batchSize = 25` and run the chunk loop. -/
def batchCreateTransactions
    (unproc : Nat → Nat → List Transaction → List Transaction)
    (now : GoTime) (tbl : Table) (txs : List Transaction) : BatchRun :=
  batchChunkLoop unproc now (chunksOf 25 txs) 0 tbl

/-- The request list of attempt `k` for a chunk, as dictated by the
store's unprocessed reports: attempt 0 submits the prepared chunk, and
attempt `k+1` submits exactly what attempt `k`'s report left
unprocessed. -/
def attemptChain (unproc : Nat → List Transaction → List Transaction)
    (reqs : List Transaction) : Nat → List Transaction
  | 0 => reqs
  | k + 1 => unproc k (attemptChain unproc reqs k)

/-! ## Helper lemmas and concrete fixtures -/

deriving instance DecidableEq for Except

/-- Zero value of Go `time.Time`. -/
def zeroTime : GoTime := { unix := -62135596800, month := "0001-01", isZero := true }

/-- A well-formed expense transaction (2024-01-15, -50, food) for user u1. -/
def txFood50 : Transaction :=
  { id := "t1", date := { unix := 1705276800, month := "2024-01", isZero := false }
    amount := -50, description := "Lunch", category := "food"
    txType := "expense", userID := "u1"
    PK := "", SK := "", GSI1PK := "", GSI1SK := "", GSI2PK := "", GSI2SK := ""
    createdAt := zeroTime, updatedAt := zeroTime, version := 1 }

/-- A well-formed income transaction (2024-01-20, 2000, salary) for user u1. -/
def txSalary : Transaction :=
  { txFood50 with
    id := "t2", date := { unix := 1705708800, month := "2024-01", isZero := false }
    amount := 2000, description := "Paycheck", category := "salary"
    txType := "income" }

/-- A well-formed expense transaction (2024-02-01, -30, food) for user u1. -/
def txFood30 : Transaction :=
  { txFood50 with
    id := "t3", date := { unix := 1706745600, month := "2024-02", isZero := false }
    amount := -30 }

/-- The sort key written by `GenerateKeys` carries the literal prefix
`TRANSACTION#`, which does not begin with the prefix `TX#` that the read
paths query. -/
theorem generateKeys_SK_not_TX (t : Transaction) :
    beginsWith "TX#" (t.generateKeys).SK = false := by
  have hT : ("TRANSACTION#" : String).data
      = 'T' :: 'R' :: ("ANSACTION#" : String).data := by decide
  have htx : ("TX#" : String).data = ['T', 'X', '#'] := by decide
  simp [beginsWith, Transaction.generateKeys, String.data_append, hT, htx,
    List.isPrefixOf]

/-- The user-partition query returns nothing from a table whose records
were all written through `GenerateKeys` (the repository's own write
paths). -/
theorem queryUserTx_created_nil (tbl : Table)
    (hcreated : ∀ r ∈ tbl, ∃ u : Transaction, r = u.generateKeys)
    (userID : String) : queryUserTx tbl userID = [] := by
  rw [queryUserTx, List.filter_eq_nil_iff]
  intro r hr
  obtain ⟨u, rfl⟩ := hcreated r hr
  simp [generateKeys_SK_not_TX]

/-- C1: the claim says a transaction stored via CreateTransaction is
returned by GetTransaction.  In fact GetTransaction's query filters the
user partition by sort-key prefix `TX#`, while CreateTransaction stores
sort keys with prefix `TRANSACTION#`, so the query matches no record the
repository ever wrote and GetTransaction answers `transaction not found`
for every id, stored or not. -/
theorem getTransaction_always_misses_created_records (tbl : Table)
    (hcreated : ∀ r ∈ tbl, ∃ u : Transaction, r = u.generateKeys)
    (userID transactionID : String) :
    getTransaction tbl userID transactionID =
      Except.error "transaction not found" := by
  rw [getTransaction, queryUserTx_created_nil tbl hcreated userID]
  rfl

/-- Witness: create one concrete transaction in an empty table, then look
it up by its own user and id — the lookup fails with NotFound. -/
theorem getTransaction_always_misses_created_records_witness :
    createTransaction [] txFood50 = Except.ok [txFood50.generateKeys] ∧
    getTransaction [txFood50.generateKeys] "u1" "t1" =
      Except.error "transaction not found" := by
  refine ⟨by decide, ?_⟩
  exact getTransaction_always_misses_created_records [txFood50.generateKeys]
    (fun r hr => ⟨txFood50, by simpa using hr⟩) "u1" "t1"

/-- A record keyed the way the spec documents the sort key (`TX#...`),
such as legacy rows written by the seeding tool; these are the only rows
the repository's read paths can see. -/
def txLegacy : Transaction :=
  { txFood50 with PK := "USER#u1", SK := "TX#1705276800#t1" }

/-- C2: the claim says UpdateTransaction writes version v+1 under an
optimistic-concurrency condition or returns Conflict.  In fact (first
conjunct) for a record stored by CreateTransaction the internal re-read
queries prefix `TX#`, misses the record, and Update fails with the
NotFound error — no conditional write ever happens; (second conjunct)
even for a record the re-read can see (a legacy `TX#...` sort key), the
new item's regenerated `TRANSACTION#...` sort key addresses a different
primary key, where the version condition finds no record and fails, so
the update returns the Conflict error without writing.  Racing updates
cannot have exactly one winner: both always fail. -/
theorem updateTransaction_never_succeeds_on_created_records :
    updateTransaction [txFood50.generateKeys] { txFood50 with amount := -75 }
        { unix := 1705300000, month := "2024-01", isZero := false } =
      Except.error "transaction not found: transaction not found" ∧
    updateTransaction [txLegacy] { txFood50 with amount := -75 }
        { unix := 1705300000, month := "2024-01", isZero := false } =
      Except.error "transaction was modified by another process, please retry" := by
  constructor
  · decide
  · decide

/-- C6: the claim's example.  First conjunct: the three example
transactions are stored for u1 through the create path.  Second conjunct:
on that store `GetFinancialSummary(u1)` returns all-zero totals with an
empty breakdown — its user-partition fetch filters sort-key prefix `TX#`,
which matches none of the stored `TRANSACTION#...` keys — not the claimed
income 2000 / expense 80 / balance 1920 / savings 96%.  Third conjunct:
even on the fetched example collection itself the aggregation returns the
claimed balance, savings rate and food breakdown but reports
MonthlyExpenses as -80 (kept negative by design), not 80. -/
theorem financialSummary_example_zeroed :
    ((createTransaction [] txFood50).bind
        (fun tb => createTransaction tb txSalary)).bind
        (fun tb => createTransaction tb txFood30) =
      Except.ok [txFood30.generateKeys, txSalary.generateKeys,
        txFood50.generateKeys] ∧
    getFinancialSummary
        [txFood30.generateKeys, txSalary.generateKeys, txFood50.generateKeys]
        "u1" =
      { totalBalance := 0, monthlyIncome := 0, monthlyExpenses := 0
        availableMoney := 0, savingsRate := 0, categoryBreakdown := [] } ∧
    financialSummaryAgg [txFood50, txSalary, txFood30] =
      { totalBalance := 1920, monthlyIncome := 2000, monthlyExpenses := -80
        availableMoney := 1920, savingsRate := 96
        categoryBreakdown :=
          [{ category := "food", amount := 80, percentage := 100, count := 2 }] } := by
  refine ⟨by decide, ?_, ?_⟩
  · have hq : queryUserTx [txFood30.generateKeys, txSalary.generateKeys,
        txFood50.generateKeys] "u1" = [] := by
      apply queryUserTx_created_nil
      intro r hr
      simp only [List.mem_cons, List.not_mem_nil, or_false] at hr
      rcases hr with h | h | h
      · exact ⟨txFood30, h⟩
      · exact ⟨txSalary, h⟩
      · exact ⟨txFood50, h⟩
    simp [getFinancialSummary, getTransactionsByUser, hq, financialSummaryAgg,
      sortByCategory, applyPercentages, List.insertionSort]
  · simp [financialSummaryAgg, summaryStep, breakdownAdd,
      applyPercentages, sortByCategory, List.insertionSort, List.orderedInsert,
      txFood50, txSalary, txFood30, FinancialSummary.mk.injEq,
      CategoryBreakdown.mk.injEq]
    norm_num

/-- The income total accumulated by the `GetMonthlyAnalytics` loop. -/
theorem foldl_monthlyStep_totalIncome (txs : List Transaction) :
    ∀ a : MonthlyAnalytics, (txs.foldl monthlyStep a).totalIncome =
      a.totalIncome +
        ((txs.filter (fun t => t.txType = "income")).map
          (fun t => t.amount)).sum := by
  induction txs with
  | nil => intro a; simp
  | cons t ts ih =>
    intro a
    by_cases h : t.txType = "income"
    · simp [ih, monthlyStep, h]; ring
    · simp [ih, monthlyStep, h]

/-- The expense total accumulated by the `GetMonthlyAnalytics` loop is the
signed sum of the non-income amounts. -/
theorem foldl_monthlyStep_totalExpense (txs : List Transaction) :
    ∀ a : MonthlyAnalytics, (txs.foldl monthlyStep a).totalExpense =
      a.totalExpense +
        ((txs.filter (fun t => ¬ t.txType = "income")).map
          (fun t => t.amount)).sum := by
  induction txs with
  | nil => intro a; simp
  | cons t ts ih =>
    intro a
    by_cases h : t.txType = "income"
    · simp [ih, monthlyStep, h]
    · simp [ih, monthlyStep, h]; ring

/-- The transaction count accumulated by the `GetMonthlyAnalytics` loop. -/
theorem foldl_monthlyStep_count (txs : List Transaction) :
    ∀ a : MonthlyAnalytics,
      (txs.foldl monthlyStep a).transactionCount =
        a.transactionCount + txs.length := by
  induction txs with
  | nil => intro a; simp
  | cons t ts ih =>
    intro a
    simp [ih, monthlyStep]
    omega

/-- C3 (amended): over any fetched collection, `GetMonthlyAnalytics`
returns TotalIncome as the sum of the income amounts, TotalExpense as the
SIGNED sum of the non-income amounts (so negative, not the absolute
value, when expenses are stored negative), Balance as
TotalIncome - TotalExpense, and the count of transactions. -/
theorem monthlyAnalytics_signed_totals (txs : List Transaction)
    (month : String) :
    (monthlyAnalyticsAgg txs month).totalIncome =
      ((txs.filter (fun t => t.txType = "income")).map
        (fun t => t.amount)).sum ∧
    (monthlyAnalyticsAgg txs month).totalExpense =
      ((txs.filter (fun t => ¬ t.txType = "income")).map
        (fun t => t.amount)).sum ∧
    (monthlyAnalyticsAgg txs month).balance =
      ((txs.filter (fun t => t.txType = "income")).map
        (fun t => t.amount)).sum -
      ((txs.filter (fun t => ¬ t.txType = "income")).map
        (fun t => t.amount)).sum ∧
    (monthlyAnalyticsAgg txs month).transactionCount = txs.length := by
  refine ⟨?_, ?_, ?_, ?_⟩ <;>
    simp [monthlyAnalyticsAgg, foldl_monthlyStep_totalIncome,
      foldl_monthlyStep_totalExpense, foldl_monthlyStep_count]

/-- Counterexample for C3 as stated: a single expense of -50 yields
TotalExpense -50, not the absolute value 50 the claim requires. -/
theorem monthlyAnalytics_totalExpense_not_absolute :
    (monthlyAnalyticsAgg [txFood50] "2024-01").totalExpense = -50 ∧
    ¬ (monthlyAnalyticsAgg [txFood50] "2024-01").totalExpense = 50 := by
  have h : (monthlyAnalyticsAgg [txFood50] "2024-01").totalExpense = -50 := by
    simp [monthlyAnalyticsAgg, monthlyStep, alistAdd, txFood50]
  exact ⟨h, by rw [h]; norm_num⟩

/-! ## Percentage-guard lemmas (C5) -/

/-- Upserting adds the inserted amount to the map's amount total. -/
theorem breakdownAdd_amount_sum (m : List CategoryBreakdown) (k : String)
    (v : ℚ) :
    ((breakdownAdd m k v).map (fun b => b.amount)).sum =
      (m.map (fun b => b.amount)).sum + v := by
  induction m with
  | nil => simp [breakdownAdd]
  | cons b rest ih =>
    by_cases h : b.category = k
    · simp [breakdownAdd, h]; ring
    · simp [breakdownAdd, h, ih]; ring

/-- Upserting never sets a percentage: entries keep percentage 0. -/
theorem breakdownAdd_percentage_zero (m : List CategoryBreakdown) (k : String)
    (v : ℚ) (hm : ∀ b ∈ m, b.percentage = 0) :
    ∀ b ∈ breakdownAdd m k v, b.percentage = 0 := by
  induction m with
  | nil =>
    intro b hb
    simp [breakdownAdd] at hb
    simp [hb]
  | cons c rest ih =>
    intro b hb
    by_cases h : c.category = k
    · simp [breakdownAdd, h] at hb
      rcases hb with hb | hb
      · simp [hb, hm c (by simp)]
      · exact hm b (by simp [hb])
    · simp [breakdownAdd, h] at hb
      rcases hb with hb | hb
      · exact hm b (by simp [hb])
      · exact ih (fun b hb => hm b (by simp [hb])) b hb

/-- The expense total accumulated by the `GetCategoryBreakdown` loop. -/
theorem foldl_breakdownStep_total (txs : List Transaction) :
    ∀ a : BreakdownAcc, (txs.foldl breakdownStep a).totalExpenses =
      a.totalExpenses + totalExpensesOf txs := by
  induction txs with
  | nil => intro a; simp [totalExpensesOf]
  | cons t ts ih =>
    intro a
    by_cases h : t.txType = "expense"
    · simp [breakdownStep, h, ih, totalExpensesOf]; ring
    · simp [breakdownStep, h, ih, totalExpensesOf]

/-- The per-category amounts accumulated by the `GetCategoryBreakdown`
loop sum to the loop's own expense total. -/
theorem foldl_breakdownStep_amounts (txs : List Transaction) :
    ∀ a : BreakdownAcc,
      ((txs.foldl breakdownStep a).categoryMap.map (fun b => b.amount)).sum =
        (a.categoryMap.map (fun b => b.amount)).sum + totalExpensesOf txs := by
  induction txs with
  | nil => intro a; simp [totalExpensesOf]
  | cons t ts ih =>
    intro a
    by_cases h : t.txType = "expense"
    · simp [breakdownStep, h, ih, breakdownAdd_amount_sum, totalExpensesOf]
      ring
    · simp [breakdownStep, h, ih, totalExpensesOf]

/-- The `GetCategoryBreakdown` loop leaves every percentage at 0. -/
theorem foldl_breakdownStep_pct (txs : List Transaction) :
    ∀ a : BreakdownAcc, (∀ b ∈ a.categoryMap, b.percentage = 0) →
      ∀ b ∈ (txs.foldl breakdownStep a).categoryMap, b.percentage = 0 := by
  induction txs with
  | nil => intro a ha; simpa using ha
  | cons t ts ih =>
    intro a ha
    by_cases h : t.txType = "expense"
    · exact ih _ (by simpa [breakdownStep, h] using
        breakdownAdd_percentage_zero _ _ _ ha)
    · simpa [breakdownStep, h] using ih _ ha

/-- The expense total accumulated by the `GetFinancialSummary` loop. -/
theorem foldl_summaryStep_total (txs : List Transaction) :
    ∀ a : SummaryAcc, (txs.foldl summaryStep a).totalExpenses =
      a.totalExpenses + totalExpensesOf txs := by
  induction txs with
  | nil => intro a; simp [totalExpensesOf]
  | cons t ts ih =>
    intro a
    by_cases h : t.txType = "income"
    · have h2 : ¬ t.txType = "expense" := by simp [h]
      simp [summaryStep, h, h2, ih, totalExpensesOf]
    · by_cases h2 : t.txType = "expense"
      · simp [summaryStep, h, h2, ih, totalExpensesOf]; ring
      · simp [summaryStep, h, h2, ih, totalExpensesOf]

/-- The per-category amounts accumulated by the `GetFinancialSummary`
loop sum to the loop's own expense total. -/
theorem foldl_summaryStep_amounts (txs : List Transaction) :
    ∀ a : SummaryAcc,
      ((txs.foldl summaryStep a).categoryMap.map (fun b => b.amount)).sum =
        (a.categoryMap.map (fun b => b.amount)).sum + totalExpensesOf txs := by
  induction txs with
  | nil => intro a; simp [totalExpensesOf]
  | cons t ts ih =>
    intro a
    by_cases h : t.txType = "income"
    · have h2 : ¬ t.txType = "expense" := by simp [h]
      simp [summaryStep, h, h2, ih, totalExpensesOf]
    · by_cases h2 : t.txType = "expense"
      · simp [summaryStep, h, h2, ih, breakdownAdd_amount_sum,
          totalExpensesOf]
        ring
      · simp [summaryStep, h, h2, ih, totalExpensesOf]

/-- The `GetFinancialSummary` loop leaves every percentage at 0. -/
theorem foldl_summaryStep_pct (txs : List Transaction) :
    ∀ a : SummaryAcc, (∀ b ∈ a.categoryMap, b.percentage = 0) →
      ∀ b ∈ (txs.foldl summaryStep a).categoryMap, b.percentage = 0 := by
  induction txs with
  | nil => intro a ha; simpa using ha
  | cons t ts ih =>
    intro a ha
    by_cases h : t.txType = "income"
    · rw [List.foldl_cons]
      refine ih _ ?_
      simpa [summaryStep, h] using ha
    · by_cases h2 : t.txType = "expense"
      · exact ih _ (by simpa [summaryStep, h, h2] using
          breakdownAdd_percentage_zero _ _ _ ha)
      · simpa [summaryStep, h, h2] using ih _ ha

/-- With a non-positive expense total the percentage pass is the
identity. -/
theorem applyPercentages_not_pos (total : ℚ) (m : List CategoryBreakdown)
    (h : ¬ 0 < total) : applyPercentages total m = m := by
  simp [applyPercentages, h]

/-- With a positive expense total equal to the sum of the mapped amounts,
the assigned percentages sum to exactly 100. -/
theorem applyPercentages_sum (total : ℚ) (m : List CategoryBreakdown)
    (h : 0 < total) (hsum : (m.map (fun b => b.amount)).sum = total) :
    ((applyPercentages total m).map (fun b => b.percentage)).sum = 100 := by
  have ht : total ≠ 0 := ne_of_gt h
  have key : ∀ l : List CategoryBreakdown,
      ((applyPercentages total l).map (fun b => b.percentage)).sum =
        (l.map (fun b => b.amount)).sum / total * 100 := by
    intro l
    induction l with
    | nil => simp [applyPercentages]
    | cons b rest ih =>
      simp only [applyPercentages, if_pos h, List.map_cons, List.sum_cons] at ih ⊢
      rw [ih]
      ring
  rw [key, hsum]
  field_simp

/-- Sorting the breakdown by category neither adds nor removes entries. -/
theorem sortByCategory_mem (l : List CategoryBreakdown)
    (b : CategoryBreakdown) : b ∈ sortByCategory l ↔ b ∈ l :=
  (List.perm_insertionSort _ l).mem_iff

/-- Sorting the breakdown by category preserves the percentage sum. -/
theorem sortByCategory_pct_sum (l : List CategoryBreakdown) :
    ((sortByCategory l).map (fun b => b.percentage)).sum =
      (l.map (fun b => b.percentage)).sum :=
  ((List.perm_insertionSort _ l).map _).sum_eq

/-- C5: over any fixed collection whose expense amounts are negative, the
per-category percentage computations of `GetCategoryBreakdown` and
`GetFinancialSummary` never divide by zero: when the expense total is 0
every category percentage is left at 0 (the guard skips the division),
and when the expense total is positive the percentages sum to exactly
100. -/
theorem categoryPercentages_guarded (txs : List Transaction)
    (_hneg : ∀ t ∈ txs, t.txType = "expense" → t.amount < 0) :
    (totalExpensesOf txs = 0 →
      (∀ b ∈ categoryBreakdownAgg txs, b.percentage = 0) ∧
      (∀ b ∈ (financialSummaryAgg txs).categoryBreakdown, b.percentage = 0)) ∧
    (0 < totalExpensesOf txs →
      ((categoryBreakdownAgg txs).map (fun b => b.percentage)).sum = 100 ∧
      (((financialSummaryAgg txs).categoryBreakdown).map
        (fun b => b.percentage)).sum = 100) := by
  have htotB : (txs.foldl breakdownStep
      { totalExpenses := 0, categoryMap := [] }).totalExpenses =
      totalExpensesOf txs := by
    rw [foldl_breakdownStep_total]; ring
  have htotS : (txs.foldl summaryStep
      { totalIncome := 0, totalExpenses := 0,
        categoryMap := [] }).totalExpenses = totalExpensesOf txs := by
    rw [foldl_summaryStep_total]; ring
  have hsumB : ((txs.foldl breakdownStep
      { totalExpenses := 0, categoryMap := [] }).categoryMap.map
        (fun b => b.amount)).sum =
      (txs.foldl breakdownStep
        { totalExpenses := 0, categoryMap := [] }).totalExpenses := by
    rw [foldl_breakdownStep_amounts, htotB]; simp
  have hsumS : ((txs.foldl summaryStep
      { totalIncome := 0, totalExpenses := 0,
        categoryMap := [] }).categoryMap.map (fun b => b.amount)).sum =
      (txs.foldl summaryStep
        { totalIncome := 0, totalExpenses := 0,
          categoryMap := [] }).totalExpenses := by
    rw [foldl_summaryStep_amounts, htotS]; simp
  constructor
  · intro h0
    have hnotB : ¬ 0 < (txs.foldl breakdownStep
        { totalExpenses := 0, categoryMap := [] }).totalExpenses := by
      rw [htotB, h0]; exact lt_irrefl 0
    have hnotS : ¬ 0 < (txs.foldl summaryStep
        { totalIncome := 0, totalExpenses := 0,
          categoryMap := [] }).totalExpenses := by
      rw [htotS, h0]; exact lt_irrefl 0
    refine ⟨?_, ?_⟩
    · intro b hb
      simp only [categoryBreakdownAgg] at hb
      rw [applyPercentages_not_pos _ _ hnotB] at hb
      exact foldl_breakdownStep_pct txs _ (by simp) b hb
    · intro b hb
      simp only [financialSummaryAgg] at hb
      rw [sortByCategory_mem, applyPercentages_not_pos _ _ hnotS] at hb
      exact foldl_summaryStep_pct txs _ (by simp) b hb
  · intro hpos
    have hposB : 0 < (txs.foldl breakdownStep
        { totalExpenses := 0, categoryMap := [] }).totalExpenses := by
      rw [htotB]; exact hpos
    have hposS : 0 < (txs.foldl summaryStep
        { totalIncome := 0, totalExpenses := 0,
          categoryMap := [] }).totalExpenses := by
      rw [htotS]; exact hpos
    refine ⟨?_, ?_⟩
    · simp only [categoryBreakdownAgg]
      exact applyPercentages_sum _ _ hposB hsumB
    · simp only [financialSummaryAgg]
      rw [sortByCategory_pct_sum]
      exact applyPercentages_sum _ _ hposS hsumS

/-- Witness for C5 at a concrete collection: one expense of -50 gives a
positive total with percentages summing to 100 in both breakdowns. -/
theorem categoryPercentages_guarded_witness :
    ((categoryBreakdownAgg [txFood50]).map (fun b => b.percentage)).sum = 100 ∧
    (((financialSummaryAgg [txFood50]).categoryBreakdown).map
      (fun b => b.percentage)).sum = 100 :=
  (categoryPercentages_guarded [txFood50]
      (by
        intro t ht htype
        rw [List.mem_singleton] at ht
        subst ht
        norm_num [txFood50])).2
    (by simp [totalExpensesOf, txFood50])

/-! ## Zero-date handling on the create path (C7) -/

/-- What the service validation makes of the zero-dated food expense:
date, CreatedAt and UpdatedAt all substituted with the clock value. -/
def t7subst : Transaction :=
  { txFood50 with
    createdAt := txFood50.date
    updatedAt := txFood50.date }

/-- Counterexample for C7 as stated: a transaction with the zero date and
otherwise valid fields is NOT rejected by the create path's validation --
`svcValidateTransaction` silently substitutes `now` for the zero date and
succeeds, and `svcCreateTransaction` then stores the record with the
substituted (non-zero) date. -/
theorem svcCreate_accepts_zero_date :
    svcValidateTransaction "gen" txFood50.date
        { txFood50 with date := zeroTime } = Except.ok t7subst ∧
    svcCreateTransaction "gen" txFood50.date []
        { txFood50 with date := zeroTime } =
      Except.ok [t7subst.generateKeys] ∧
    t7subst.generateKeys.date.isZero = false := by
  refine ⟨by decide, by decide, by decide⟩

/-- The date the `svcFinalize` mutations leave on the transaction. -/
theorem svcFinalize_date (now : GoTime) (t : Transaction) :
    (svcFinalize now t).date = if t.date.isZero = true then now else t.date := by
  by_cases hd : t.date.isZero <;> by_cases hc : t.createdAt.isZero <;>
    by_cases hv0 : t.version = 0 <;> simp [svcFinalize, hd, hc, hv0]

/-- Generating a missing id does not change the date. -/
theorem svcGenID_date (genID : String) (t : Transaction) :
    (svcGenID genID t).date = t.date := by
  by_cases hi : t.id = "" <;> simp [svcGenID, hi]

/-- The date a successful service validation leaves on the transaction:
the caller's date, except that the zero date is replaced by now. -/
theorem svcValidate_ok_date (genID : String) (now : GoTime)
    (t t' : Transaction)
    (hv : svcValidateTransaction genID now t = Except.ok t') :
    t'.date = if t.date.isZero = true then now else t.date := by
  simp only [svcValidateTransaction] at hv
  split at hv
  · exact absurd hv (by simp)
  split at hv
  · exact absurd hv (by simp)
  split at hv
  · exact absurd hv (by simp)
  split at hv
  · exact absurd hv (by simp)
  split at hv
  · exact absurd hv (by simp)
  injection hv with hX
  subst hX
  rw [svcFinalize_date, svcGenID_date]

/-- C7 (amended): the create path does not reject a zero date.  A
successful service-level create stores exactly one new record, whose date
is never zero (given a non-zero clock), and which is the current time
precisely when the caller's date was the zero value -- a silent
substitution, not a validation error.  Entity-level
`Transaction.Validate` (second conjunct) does reject the zero date, but
it runs on the repository's update path, not on the create path. -/
theorem svcCreate_zero_date_substituted (genID : String) (now : GoTime)
    (tbl : Table) (t : Transaction) (tbl' : Table)
    (hnow : now.isZero = false)
    (h : svcCreateTransaction genID now tbl t = Except.ok tbl') :
    (∃ stored, tbl' = stored :: tbl ∧ stored.date.isZero = false ∧
      (t.date.isZero = true → stored.date = now)) ∧
    (∀ u : Transaction, ¬ u.userID = "" → ¬ u.amount = 0 →
      (u.txType = "income" ∨ u.txType = "expense") → ¬ u.category = "" →
      u.date.isZero = true → u.validate = some "date is required") := by
  constructor
  · cases hv : svcValidateTransaction genID now t with
    | error e => simp [svcCreateTransaction, hv] at h
    | ok t' =>
      simp only [svcCreateTransaction, hv] at h
      simp only [createTransaction] at h
      split at h
      · exact absurd h (by simp)
      · have htbl : tbl' = t'.generateKeys.generateKeys :: tbl := by
          injection h with h'
          exact h'.symm
        have hdate : t'.generateKeys.generateKeys.date = t'.date := rfl
        have hd := svcValidate_ok_date genID now t t' hv
        refine ⟨t'.generateKeys.generateKeys, htbl, ?_, ?_⟩
        · rw [hdate, hd]
          cases hz : t.date.isZero with
          | true => simpa using hnow
          | false => simp [hz]
        · intro hz
          rw [hdate, hd, if_pos hz]
  · intro u h1 h2 h3 h4 h5
    rcases h3 with h3 | h3 <;>
      simp [Transaction.validate, h1, h2, h3, h4, h5]

/-- Witness for the amended C7 at a concrete input: creating the
zero-dated transaction stores one record with the substituted, non-zero
date. -/
theorem svcCreate_zero_date_substituted_witness :
    ∃ stored,
      [t7subst.generateKeys] = stored :: ([] : Table) ∧
        stored.date.isZero = false ∧
        (({ txFood50 with date := zeroTime } : Transaction).date.isZero = true →
          stored.date = txFood50.date) :=
  (svcCreate_zero_date_substituted "gen" txFood50.date []
      { txFood50 with date := zeroTime } [t7subst.generateKeys]
      (by decide) (by decide)).1

/-! ## Service-layer list limits (C8) -/

/-- A legacy-keyed (`TX#k`) record for user u1, visible to the
user-partition query. -/
def mkLegacy (k : Nat) : Transaction :=
  { txFood50 with id := toString k, PK := "USER#u1", SK := "TX#" ++ toString k }

/-- A table with 51 records matching the user-partition query for u1. -/
def tbl51 : Table := (List.range 51).map mkLegacy

/-- Counterexample for C8 as stated: with no positive caller limit the
service list path returns at most 50 items (the default is 50, not the
claimed 1000) — the same call with limit 1000 returns all 51. -/
theorem svcList_default_limit_is_50 :
    Except.map List.length (svcGetTransactionsByUser tbl51 "u1" 0) =
      Except.ok 50 ∧
    Except.map List.length (svcGetTransactionsByUser tbl51 "u1" 1000) =
      Except.ok 51 := by
  refine ⟨by decide, by decide⟩

/-- The service sort preserves the number of fetched items. -/
theorem sortByDateDesc_length (l : List Transaction) :
    (sortByDateDesc l).length = l.length :=
  (List.perm_insertionSort _ l).length_eq

/-- C8 (amended): each of the three transaction-service list operations
returns at most `effectiveLimit limit` items, where a non-positive caller
limit defaults to 50 (not 1000): the call with a non-positive limit is
the very call with limit 50.  (The analytics paths pass a fixed limit of
1000 instead; see `getFinancialSummary`.) -/
theorem svcList_limits (tbl : Table) (userID month category : String)
    (limit : Int) (hu : ¬ userID = "") (hm : ¬ month = "")
    (hc : ¬ category = "") :
    (∃ l, svcGetTransactionsByUser tbl userID limit = Except.ok l ∧
      l.length ≤ (effectiveLimit limit).toNat) ∧
    (∃ l, svcGetTransactionsByMonth tbl userID month limit = Except.ok l ∧
      l.length ≤ (effectiveLimit limit).toNat) ∧
    (∃ l, svcGetTransactionsByCategory tbl userID category limit = Except.ok l ∧
      l.length ≤ (effectiveLimit limit).toNat) ∧
    (limit ≤ 0 → effectiveLimit limit = 50 ∧
      svcGetTransactionsByUser tbl userID limit =
        svcGetTransactionsByUser tbl userID 50 ∧
      svcGetTransactionsByMonth tbl userID month limit =
        svcGetTransactionsByMonth tbl userID month 50 ∧
      svcGetTransactionsByCategory tbl userID category limit =
        svcGetTransactionsByCategory tbl userID category 50) := by
  refine ⟨⟨sortByDateDesc (getTransactionsByUser tbl userID
      (effectiveLimit limit)), ?_, ?_⟩,
    ⟨getTransactionsByMonth tbl userID month (effectiveLimit limit), ?_, ?_⟩,
    ⟨getTransactionsByCategory tbl userID category (effectiveLimit limit),
      ?_, ?_⟩, ?_⟩
  · simp [svcGetTransactionsByUser, hu]
  · rw [sortByDateDesc_length]
    exact List.length_take_le _ _
  · simp [svcGetTransactionsByMonth, hu, hm]
  · exact List.length_take_le _ _
  · simp [svcGetTransactionsByCategory, hu, hc]
  · exact List.length_take_le _ _
  · intro hlim
    have he : effectiveLimit limit = 50 := by simp [effectiveLimit, hlim]
    have he50 : effectiveLimit 50 = 50 := by simp [effectiveLimit]
    refine ⟨he, ?_, ?_, ?_⟩ <;>
      simp [svcGetTransactionsByUser, svcGetTransactionsByMonth,
        svcGetTransactionsByCategory, he, he50]

/-- Witness for the amended C8 at a concrete input. -/
theorem svcList_limits_witness :
    ∃ l, svcGetTransactionsByUser [] "u1" 0 = Except.ok l ∧
      l.length ≤ (effectiveLimit 0).toNat :=
  (svcList_limits [] "u1" "2024-01" "food" 0 (by decide) (by decide)
    (by decide)).1

/-! ## Update frame effect on CreatedAt (C9) -/

/-- C9: whenever `UpdateTransaction` succeeds, the caller's CreatedAt is
irrelevant: the written record carries the re-read record's CreatedAt,
UpdatedAt is the clock value, the version is the re-read version plus
one, and the keys are regenerated; the same call with ANY caller-supplied
CreatedAt writes the identical table. -/
theorem updateTransaction_preserves_createdAt (tbl : Table) (t : Transaction)
    (now : GoTime) (tbl' : Table)
    (h : updateTransaction tbl t now = Except.ok tbl') :
    ∃ existing, getTransaction tbl t.userID t.id = Except.ok existing ∧
      tbl' = putItem tbl (({ t with
        createdAt := existing.createdAt
        updatedAt := now
        version := existing.version + 1 } : Transaction).generateKeys) ∧
      ∀ c : GoTime,
        updateTransaction tbl { t with createdAt := c } now =
          Except.ok tbl' := by
  have h0 := h
  have hirrel : ∀ c : GoTime,
      updateTransaction tbl { t with createdAt := c } now =
        updateTransaction tbl t now := fun c => rfl
  cases hval : t.validate with
  | some e => simp [updateTransaction, hval] at h
  | none =>
    simp only [updateTransaction, hval] at h
    cases hget : getTransaction tbl t.userID t.id with
    | error e => simp [hget] at h
    | ok existing =>
      simp only [hget] at h
      refine ⟨existing, rfl, ?_, fun c => (hirrel c).trans h0⟩
      split at h
      · split at h
        · injection h with h'
          exact h'.symm
        · exact absurd h (by simp)
      · exact absurd h (by simp)

/-- The caller-side entity for the witness update: the food expense with
a changed amount. -/
def updT9 : Transaction := { txFood50 with amount := -75 }

/-- The clock value for the witness update. -/
def now9 : GoTime := { unix := 1705300000, month := "2024-01", isZero := false }

/-- A table on which `UpdateTransaction` succeeds: the legacy `TX#...`
record the re-read finds, plus a record at the regenerated
`TRANSACTION#...` key whose version matches. -/
def tbl9 : Table := [txLegacy, txFood50.generateKeys]

/-- The record the witness update writes. -/
def item9 : Transaction :=
  ({ updT9 with
    createdAt := txLegacy.createdAt
    updatedAt := now9
    version := txLegacy.version + 1 } : Transaction).generateKeys

/-- Witness for C9: a concrete successful update; the conclusion exhibits
the re-read record, the written table and the CreatedAt-independence. -/
theorem updateTransaction_preserves_createdAt_witness :
    ∃ existing, getTransaction tbl9 updT9.userID updT9.id =
        Except.ok existing ∧
      putItem tbl9 item9 = putItem tbl9 (({ updT9 with
        createdAt := existing.createdAt
        updatedAt := now9
        version := existing.version + 1 } : Transaction).generateKeys) ∧
      ∀ c : GoTime,
        updateTransaction tbl9 { updT9 with createdAt := c } now9 =
          Except.ok (putItem tbl9 item9) :=
  updateTransaction_preserves_createdAt tbl9 updT9 now9 (putItem tbl9 item9)
    (by decide)

/-! ## Category option labels (C10) -/

/-- Every category accumulated by `uniqueCategories` comes from some
transaction of the collection (or from the starting accumulator). -/
theorem uniqueCategories_from (txs : List Transaction) :
    ∀ acc : List String, ∀ c ∈ txs.foldl
      (fun acc t =>
        if acc.contains t.category then acc else acc ++ [t.category]) acc,
      c ∈ acc ∨ ∃ t ∈ txs, t.category = c := by
  induction txs with
  | nil => intro acc c hc; exact Or.inl (by simpa using hc)
  | cons t ts ih =>
    intro acc c hc
    simp only [List.foldl_cons] at hc
    rcases ih _ c hc with hacc | ⟨u, hu, hcat⟩
    · by_cases hmem : acc.contains t.category
      · rw [if_pos hmem] at hacc
        exact Or.inl hacc
      · rw [if_neg hmem] at hacc
        rcases List.mem_append.mp hacc with hl | hr
        · exact Or.inl hl
        · exact Or.inr ⟨t, by simp, by simpa using (List.mem_singleton.mp hr).symm⟩
    · exact Or.inr ⟨u, by simp [hu], hcat⟩

/-- Label construction succeeds on every list of non-empty categories. -/
theorem buildOptions_isSome (l : List String)
    (hl : ∀ c ∈ l, ¬ c = "") :
    (buildOptions l).isSome = true := by
  induction l with
  | nil => simp [buildOptions]
  | cons c cs ih =>
    obtain ⟨cdata⟩ := c
    cases cdata with
    | nil => exact absurd rfl (hl _ (by simp))
    | cons ch rest =>
      have hsome : categoryLabel (String.mk (ch :: rest)) =
          some (String.mk (ch.toUpper :: rest)) := rfl
      obtain ⟨bs, hbs⟩ := Option.isSome_iff_exists.mp
        (ih (fun c hc => hl c (by simp [hc])))
      simp [buildOptions, hsome, hbs]

/-- C10: `GetCategoryOptions` labels each distinct category by indexing
its first byte.  For every collection in which every transaction's
category is non-empty the indexing is in bounds and the operation
completes (first conjunct); the precondition is necessary: one empty
category makes the index out of range (second conjunct, modelled as
`none`). -/
theorem categoryOptions_first_byte_safe :
    (∀ txs : List Transaction, (∀ t ∈ txs, ¬ t.category = "") →
      (categoryOptionsAgg txs).isSome = true) ∧
    categoryOptionsAgg [{ txFood50 with category := "" }] = none := by
  constructor
  · intro txs htxs
    apply buildOptions_isSome
    intro c hc
    rcases uniqueCategories_from txs [] c hc with hacc | ⟨t, ht, hcat⟩
    · simp at hacc
    · rw [← hcat]
      exact htxs t ht
  · decide

/-- Witness for C10 at a concrete collection with a non-empty category. -/
theorem categoryOptions_first_byte_safe_witness :
    (categoryOptionsAgg [txFood50]).isSome = true :=
  categoryOptions_first_byte_safe.1 [txFood50]
    (fun t ht => by rw [List.mem_singleton.mp ht]; decide)

/-! ## Batch-load machinery (C4) -/

/-- Fuel-indexed form of `chunksOf_join`. -/
theorem chunksOf_join_fuel (n : Nat) :
    ∀ (k : Nat) (l : List Transaction), l.length ≤ k →
      (chunksOf n l).flatten = l := by
  intro k
  induction k with
  | zero =>
    intro l hl
    rw [List.length_eq_zero.mp (Nat.le_zero.mp hl)]
    simp [chunksOf]
  | succ k ih =>
    intro l hl
    cases l with
    | nil => simp [chunksOf]
    | cons x xs =>
      simp only [chunksOf, List.flatten_cons, List.cons_append]
      rw [ih (xs.drop (n - 1)) ?_]
      · rw [List.take_append_drop]
      · have hd : (xs.drop (n - 1)).length = xs.length - (n - 1) :=
          List.length_drop _ _
        have hx : xs.length + 1 ≤ k + 1 := by simpa using hl
        omega

/-- The chunks concatenate back to the input: the partition is into
consecutive slices in order. -/
theorem chunksOf_flatten (n : Nat) (l : List Transaction) :
    (chunksOf n l).flatten = l :=
  chunksOf_join_fuel n l.length l (Nat.le_refl _)

/-- Fuel-indexed form of `chunksOf_size`. -/
theorem chunksOf_size_fuel (n : Nat) (hn : 1 ≤ n) :
    ∀ (k : Nat) (l : List Transaction), l.length ≤ k →
      ∀ c ∈ chunksOf n l, 0 < c.length ∧ c.length ≤ n := by
  intro k
  induction k with
  | zero =>
    intro l hl
    rw [List.length_eq_zero.mp (Nat.le_zero.mp hl)]
    simp [chunksOf]
  | succ k ih =>
    intro l hl c hc
    cases l with
    | nil => simp [chunksOf] at hc
    | cons x xs =>
      simp only [chunksOf, List.mem_cons] at hc
      rcases hc with rfl | hc
      · have ht : (xs.take (n - 1)).length ≤ n - 1 := List.length_take_le _ _
        simp only [List.length_cons]
        omega
      · refine ih (xs.drop (n - 1)) ?_ c hc
        have hd : (xs.drop (n - 1)).length = xs.length - (n - 1) :=
          List.length_drop _ _
        have hx : xs.length + 1 ≤ k + 1 := by simpa using hl
        omega

/-- Every chunk is non-empty and holds at most `n` items. -/
theorem chunksOf_size (n : Nat) (hn : 1 ≤ n) (l : List Transaction) :
    ∀ c ∈ chunksOf n l, 0 < c.length ∧ c.length ≤ n :=
  chunksOf_size_fuel n hn l.length l (Nat.le_refl _)

/-- In a key-pairwise-distinct list, records sharing a key are equal. -/
theorem key_unique_of_pairwise (allowed : List Transaction)
    (hdk : allowed.Pairwise (fun a b => ¬ sameKey a b)) :
    ∀ p ∈ allowed, ∀ t ∈ allowed, sameKey p t → p = t := by
  induction allowed with
  | nil => simp
  | cons a rest ih =>
    intro p hp t ht hk
    rcases List.pairwise_cons.mp hdk with ⟨ha, hrest⟩
    rcases List.mem_cons.mp hp with rfl | hp'
    · rcases List.mem_cons.mp ht with rfl | ht'
      · rfl
      · exact absurd hk (ha t ht')
    · rcases List.mem_cons.mp ht with rfl | ht'
      · exact absurd ⟨hk.1.symm, hk.2.symm⟩ (ha p hp')
      · exact ih hrest p hp' t ht' hk

/-- A put of an allowed record keeps every allowed record present (the
record with the same key can only be overwritten by itself). -/
theorem putItem_mem_preserve (tbl : Table) (p t : Transaction)
    (allowed : List Transaction)
    (hdk : allowed.Pairwise (fun a b => ¬ sameKey a b))
    (hp : p ∈ allowed) (ht : t ∈ allowed) (hmem : t ∈ tbl) :
    t ∈ putItem tbl p := by
  by_cases hk : sameKey p t
  · rw [key_unique_of_pairwise allowed hdk p hp t ht hk]
    exact List.mem_cons_self _ _
  · refine List.mem_cons_of_mem _ (List.mem_filter.mpr ⟨hmem, ?_⟩)
    rw [decide_eq_true_eq]
    intro hc
    exact hk ⟨hc.1.symm, hc.2.symm⟩

/-- Applying allowed puts keeps every allowed record present. -/
theorem applyPuts_mem_preserve (puts : List Transaction)
    (allowed : List Transaction)
    (hdk : allowed.Pairwise (fun a b => ¬ sameKey a b))
    (hps : ∀ p ∈ puts, p ∈ allowed) :
    ∀ (tbl : Table) (t : Transaction), t ∈ allowed → t ∈ tbl →
      t ∈ applyPuts tbl puts := by
  induction puts with
  | nil => intro tbl t _ hmem; simpa [applyPuts] using hmem
  | cons q rest ih =>
    intro tbl t ht hmem
    simp only [applyPuts, List.foldl_cons] at ih ⊢
    exact ih (fun p hp => hps p (List.mem_cons_of_mem _ hp)) (putItem tbl q) t
      ht (putItem_mem_preserve tbl q t allowed hdk (hps q (by simp)) ht hmem)

/-- A put item is present after the batch of puts containing it. -/
theorem applyPuts_mem_self (puts : List Transaction)
    (allowed : List Transaction)
    (hdk : allowed.Pairwise (fun a b => ¬ sameKey a b))
    (hps : ∀ p ∈ puts, p ∈ allowed) :
    ∀ (tbl : Table) (p : Transaction), p ∈ puts → p ∈ applyPuts tbl puts := by
  induction puts with
  | nil => intro tbl p hp; cases hp
  | cons q rest ih =>
    intro tbl p hp
    simp only [applyPuts, List.foldl_cons] at ih ⊢
    rcases List.mem_cons.mp hp with rfl | hp'
    · exact applyPuts_mem_preserve rest allowed hdk
        (fun x hx => hps x (List.mem_cons_of_mem _ hx)) (putItem tbl p) p
        (hps p (by simp)) (List.mem_cons_self _ _)
    · exact ih (fun x hx => hps x (List.mem_cons_of_mem _ hx)) (putItem tbl q)
        p hp'

/-- The retry loop only ever puts allowed records, so every allowed
record already in the table survives it, whatever the outcome. -/
theorem batchWriteLoop_mem_preserve
    (unproc : Nat → List Transaction → List Transaction) (maxR : Nat)
    (hsub : ∀ r l, unproc r l ⊆ l) (allowed : List Transaction)
    (hdk : allowed.Pairwise (fun a b => ¬ sameKey a b)) :
    ∀ (fuel : Nat) (tbl : Table) (reqs : List Transaction),
      reqs ⊆ allowed → ∀ t ∈ allowed, t ∈ tbl →
        t ∈ (batchWriteLoop unproc maxR fuel tbl reqs).1 := by
  intro fuel
  induction fuel with
  | zero =>
    intro tbl reqs hreqs t hta hmem
    simpa [batchWriteLoop] using hmem
  | succ f ih =>
    intro tbl reqs hreqs t hta hmem
    have hputs : ∀ p ∈ reqs.filter
        (fun r => !decide (r ∈ unproc (maxR - (f + 1)) reqs)), p ∈ allowed :=
      fun p hp => hreqs (List.mem_of_mem_filter hp)
    have htbl' : t ∈ applyPuts tbl (reqs.filter
        (fun r => !decide (r ∈ unproc (maxR - (f + 1)) reqs))) :=
      applyPuts_mem_preserve _ allowed hdk hputs tbl t hta hmem
    simp only [batchWriteLoop]
    split
    · exact htbl'
    · split
      · exact htbl'
      · exact ih _ _ (fun p hp => hreqs (hsub _ _ hp)) t hta htbl'

/-- When the retry loop reports success, every requested record was put
at some attempt and is present in the resulting table. -/
theorem batchWriteLoop_ok_put
    (unproc : Nat → List Transaction → List Transaction) (maxR : Nat)
    (hsub : ∀ r l, unproc r l ⊆ l) (allowed : List Transaction)
    (hdk : allowed.Pairwise (fun a b => ¬ sameKey a b)) :
    ∀ (fuel : Nat), 0 < fuel → ∀ (tbl : Table) (reqs : List Transaction),
      reqs ⊆ allowed →
      (batchWriteLoop unproc maxR fuel tbl reqs).2.ok = true →
      ∀ t ∈ reqs, t ∈ (batchWriteLoop unproc maxR fuel tbl reqs).1 := by
  intro fuel
  induction fuel with
  | zero => intro h; cases h
  | succ f ih =>
    intro _ tbl reqs hreqs hok t ht
    have hputs : ∀ p ∈ reqs.filter
        (fun r => !decide (r ∈ unproc (maxR - (f + 1)) reqs)), p ∈ allowed :=
      fun p hp => hreqs (List.mem_of_mem_filter hp)
    simp only [batchWriteLoop] at hok ⊢
    split at hok
    · next hemp =>
      simp only [if_pos hemp]
      apply applyPuts_mem_self _ allowed hdk hputs
      refine List.mem_filter.mpr ⟨ht, ?_⟩
      rw [List.isEmpty_iff] at hemp
      simp [hemp]
    · split at hok
      · next hemp hf => simp at hok
      · next hemp hf =>
        simp only [if_neg hemp, if_neg hf]
        by_cases hmem : t ∈ unproc (maxR - (f + 1)) reqs
        · exact ih (Nat.pos_of_ne_zero hf) _ _
            (fun p hp => hreqs (hsub _ _ hp)) hok t hmem
        · have ht' : t ∈ applyPuts tbl (reqs.filter
              (fun r => !decide (r ∈ unproc (maxR - (f + 1)) reqs))) := by
            apply applyPuts_mem_self _ allowed hdk hputs
            exact List.mem_filter.mpr ⟨ht, by simp [hmem]⟩
          exact batchWriteLoop_mem_preserve unproc maxR hsub allowed hdk f _ _
            (fun p hp => hreqs (hsub _ _ hp)) t (hreqs ht) ht'

/-- Full characterization of one chunk's retry loop at the source's
`maxRetries = 3`: at least one and at most three attempts; attempt `k`
submits exactly the chain of unprocessed reports (attempt 0 the chunk,
attempt `k+1` what attempt `k` left unprocessed); the sleeps are the
linear backoff `100ms, 200ms` truncated to the attempts made; and the
fatal error occurs exactly when all three reports are non-empty. -/
theorem batchWriteLoop3_log
    (unproc : Nat → List Transaction → List Transaction)
    (tbl : Table) (reqs : List Transaction) :
    0 < (batchWriteLoop unproc 3 3 tbl reqs).2.submitted.length ∧
    (batchWriteLoop unproc 3 3 tbl reqs).2.submitted.length ≤ 3 ∧
    (∀ k, k < (batchWriteLoop unproc 3 3 tbl reqs).2.submitted.length →
      (batchWriteLoop unproc 3 3 tbl reqs).2.submitted[k]? =
        some (attemptChain unproc reqs k)) ∧
    (batchWriteLoop unproc 3 3 tbl reqs).2.sleeps =
      (List.range
        ((batchWriteLoop unproc 3 3 tbl reqs).2.submitted.length - 1)).map
        (fun r => (r + 1) * 100) ∧
    ((batchWriteLoop unproc 3 3 tbl reqs).2.ok = false ↔
      ∀ k < 3, attemptChain unproc reqs (k + 1) ≠ []) := by
  by_cases h0 : unproc 0 reqs = []
  · have e : (batchWriteLoop unproc 3 3 tbl reqs).2 =
        { submitted := [reqs], sleeps := [], ok := true } := by
      simp [batchWriteLoop, h0]
    rw [e]
    refine ⟨by simp, by simp, ?_, by simp, ?_⟩
    · intro k hk
      simp only [List.length_singleton] at hk
      interval_cases k
      simp [attemptChain]
    · simp only [List.range_zero]
      constructor
      · intro hfalse; cases hfalse
      · intro hall
        exact absurd (by simp [attemptChain, h0]) (hall 0 (by norm_num))
  · by_cases h1 : unproc 1 (unproc 0 reqs) = []
    · have e : (batchWriteLoop unproc 3 3 tbl reqs).2 =
          { submitted := [reqs, unproc 0 reqs], sleeps := [100],
            ok := true } := by
        simp [batchWriteLoop, h0, h1]
      rw [e]
      refine ⟨by simp, by simp, ?_, by simp [List.range_succ], ?_⟩
      · intro k hk
        simp only [List.length_cons, List.length_nil] at hk
        have hk' : k = 0 ∨ k = 1 := by omega
        rcases hk' with rfl | rfl <;> simp [attemptChain]
      · constructor
        · intro hfalse; cases hfalse
        · intro hall
          exact absurd (by simp [attemptChain, h1]) (hall 1 (by norm_num))
    · by_cases h2 : unproc 2 (unproc 1 (unproc 0 reqs)) = []
      · have e : (batchWriteLoop unproc 3 3 tbl reqs).2 =
            { submitted := [reqs, unproc 0 reqs, unproc 1 (unproc 0 reqs)],
              sleeps := [100, 200], ok := true } := by
          simp [batchWriteLoop, h0, h1, h2]
        rw [e]
        refine ⟨by simp, by simp, ?_, ?_, ?_⟩
        · intro k hk
          simp only [List.length_cons, List.length_nil] at hk
          have hk' : k = 0 ∨ k = 1 ∨ k = 2 := by omega
          rcases hk' with rfl | rfl | rfl <;> simp [attemptChain]
        · simp [List.range_succ]
        · constructor
          · intro hfalse; cases hfalse
          · intro hall
            exact absurd (by simp [attemptChain, h2]) (hall 2 (by norm_num))
      · have e : (batchWriteLoop unproc 3 3 tbl reqs).2 =
            { submitted := [reqs, unproc 0 reqs, unproc 1 (unproc 0 reqs)],
              sleeps := [100, 200], ok := false } := by
          simp [batchWriteLoop, h0, h1, h2]
        rw [e]
        refine ⟨by simp, by simp, ?_, ?_, ?_⟩
        · intro k hk
          simp only [List.length_cons, List.length_nil] at hk
          have hk' : k = 0 ∨ k = 1 ∨ k = 2 := by omega
          rcases hk' with rfl | rfl | rfl <;> simp [attemptChain]
        · simp [List.range_succ]
        · constructor
          · intro _ k hk
            have hk' : k = 0 ∨ k = 1 ∨ k = 2 := by omega
            rcases hk' with rfl | rfl | rfl <;>
              simp [attemptChain, h0, h1, h2]
          · intro _; rfl

/-- The chunk loop logs at most one entry per chunk, and exactly one per
chunk when the whole load completes. -/
theorem batchChunkLoop_logs_length
    (unproc : Nat → Nat → List Transaction → List Transaction)
    (now : GoTime) :
    ∀ (cs : List (List Transaction)) (i : Nat) (tbl : Table),
      (batchChunkLoop unproc now cs i tbl).logs.length ≤ cs.length ∧
      ((batchChunkLoop unproc now cs i tbl).ok = true →
        (batchChunkLoop unproc now cs i tbl).logs.length = cs.length) := by
  intro cs
  induction cs with
  | nil => intro i tbl; simp [batchChunkLoop]
  | cons c cs ih =>
    intro i tbl
    simp only [batchChunkLoop]
    split
    · have := ih (i + 1) (batchWriteTransactions (unproc i) now tbl c).1
      constructor
      · simpa using Nat.succ_le_succ this.1
      · intro hok
        simpa using this.2 hok
    · simp

/-- A failed load has logged at least the failing chunk. -/
theorem batchChunkLoop_fail_logs_ne
    (unproc : Nat → Nat → List Transaction → List Transaction)
    (now : GoTime) :
    ∀ (cs : List (List Transaction)) (i : Nat) (tbl : Table),
      (batchChunkLoop unproc now cs i tbl).ok = false →
      (batchChunkLoop unproc now cs i tbl).logs ≠ [] := by
  intro cs
  induction cs with
  | nil => intro i tbl h; simp [batchChunkLoop] at h
  | cons c cs ih =>
    intro i tbl
    simp only [batchChunkLoop]
    split
    · intro hok
      simp
    · intro _
      simp

/-- The chunk loop only ever puts prepared records, so every allowed
record already in the table survives the whole load. -/
theorem batchChunkLoop_mem_preserve
    (unproc : Nat → Nat → List Transaction → List Transaction)
    (now : GoTime) (allowed : List Transaction)
    (hsub : ∀ i r l, unproc i r l ⊆ l)
    (hdk : allowed.Pairwise (fun a b => ¬ sameKey a b)) :
    ∀ (cs : List (List Transaction)) (i : Nat) (tbl : Table),
      (∀ c ∈ cs, ∀ x ∈ c, prepareTx now x ∈ allowed) →
      ∀ t ∈ allowed, t ∈ tbl →
        t ∈ (batchChunkLoop unproc now cs i tbl).table := by
  intro cs
  induction cs with
  | nil => intro i tbl _ t _ hmem; simpa [batchChunkLoop] using hmem
  | cons c cs ih =>
    intro i tbl hcs t hta hmem
    have hreqs : c.map (prepareTx now) ⊆ allowed := by
      intro p hp
      obtain ⟨x, hx, rfl⟩ := List.mem_map.mp hp
      exact hcs c (by simp) x hx
    have hstep : t ∈ (batchWriteTransactions (unproc i) now tbl c).1 :=
      batchWriteLoop_mem_preserve (unproc i) 3 (hsub i) allowed hdk 3 tbl _
        hreqs t hta hmem
    simp only [batchChunkLoop]
    split
    · exact ih (i + 1) _ (fun c' hc' => hcs c' (by simp [hc'])) t hta hstep
    · exact hstep

/-- Committed-prefix guarantee: when the load fails, every chunk logged
before the failing one has all its prepared records present in the final
table — earlier chunks are not rolled back. -/
theorem batchChunkLoop_committed
    (unproc : Nat → Nat → List Transaction → List Transaction)
    (now : GoTime) (allowed : List Transaction)
    (hsub : ∀ i r l, unproc i r l ⊆ l)
    (hdk : allowed.Pairwise (fun a b => ¬ sameKey a b)) :
    ∀ (cs : List (List Transaction)) (i : Nat) (tbl : Table),
      (∀ c ∈ cs, ∀ x ∈ c, prepareTx now x ∈ allowed) →
      (batchChunkLoop unproc now cs i tbl).ok = false →
      ∀ c ∈ cs.take ((batchChunkLoop unproc now cs i tbl).logs.length - 1),
        ∀ x ∈ c, prepareTx now x ∈ (batchChunkLoop unproc now cs i tbl).table := by
  intro cs
  induction cs with
  | nil => intro i tbl _ hfail; simp [batchChunkLoop] at hfail
  | cons c cs ih =>
    intro i tbl hcs hfail
    have hreqs : c.map (prepareTx now) ⊆ allowed := by
      intro p hp
      obtain ⟨x, hx, rfl⟩ := List.mem_map.mp hp
      exact hcs c (by simp) x hx
    simp only [batchChunkLoop] at hfail ⊢
    split at hfail
    · next hok =>
      simp only [if_pos hok]
      have hrestfail : (batchChunkLoop unproc now cs (i + 1)
          (batchWriteTransactions (unproc i) now tbl c).1).ok = false := hfail
      have hne := batchChunkLoop_fail_logs_ne unproc now cs (i + 1)
        (batchWriteTransactions (unproc i) now tbl c).1 hrestfail
      obtain ⟨m, hm⟩ : ∃ m, (batchChunkLoop unproc now cs (i + 1)
          (batchWriteTransactions (unproc i) now tbl c).1).logs.length =
            m + 1 := by
        rcases Nat.exists_eq_succ_of_ne_zero (fun h =>
          hne (List.length_eq_zero.mp h)) with ⟨m, hm⟩
        exact ⟨m, hm⟩
      simp only [List.length_cons, hm, Nat.add_sub_cancel, List.take_succ_cons]
      intro c' hc' x hx
      rcases List.mem_cons.mp hc' with hceq | hc''
      · rw [hceq] at hx
        have hput : prepareTx now x ∈
            (batchWriteTransactions (unproc i) now tbl c).1 :=
          batchWriteLoop_ok_put (unproc i) 3 (hsub i) allowed hdk 3
            (by norm_num) tbl _ hreqs hok _ (List.mem_map_of_mem _ hx)
        exact batchChunkLoop_mem_preserve unproc now allowed hsub hdk cs
          (i + 1) _ (fun c'' hc'' => hcs c'' (by simp [hc''])) _
          (hreqs (List.mem_map_of_mem _ hx)) hput
      · have := ih (i + 1) (batchWriteTransactions (unproc i) now tbl c).1
          (fun c'' hc'' => hcs c'' (by simp [hc''])) hrestfail c'
        rw [hm] at this
        exact this (by simpa using hc'') x hx
    · next hok =>
      simp only [if_neg hok]
      simp

/-- With a store that reports nothing unprocessed, the whole load
completes — regardless of what records (with whatever keys) the table
already holds, because the puts are unconditional. -/
theorem batchChunkLoop_all_processed (now : GoTime)
    (u2 : Nat → Nat → List Transaction → List Transaction)
    (hall : ∀ i r l, u2 i r l = []) :
    ∀ (cs : List (List Transaction)) (i : Nat) (tbl : Table),
      (batchChunkLoop u2 now cs i tbl).ok = true := by
  intro cs
  induction cs with
  | nil => intro i tbl; simp [batchChunkLoop]
  | cons c cs ih =>
    intro i tbl
    have hok : (batchWriteTransactions (u2 i) now tbl c).2.ok = true := by
      simp [batchWriteTransactions, batchWriteLoop, hall]
    simp only [batchChunkLoop, if_pos hok]
    exact ih (i + 1) _

/-- C4: `BatchCreateTransactions` partitions its input into consecutive
chunks of at most 25 (first two conjuncts, with one log per chunk until
the first failure); each chunk's retry loop makes at most three attempts,
resubmitting exactly — and only — the subset the store reported
unprocessed, with linearly increasing backoff sleeps, and fails exactly
when the unprocessed remainder survives the last attempt (per-chunk
bundle); on failure every earlier chunk's records remain committed in
the final table (no rollback); and the writes are blind puts: a store
that processes everything makes the load succeed over ANY existing table
contents, whereas `CreateTransaction`'s conditional write fails whenever
a record with the same key already exists. -/
theorem batchCreate_chunked_retry (txs : List Transaction)
    (unproc : Nat → Nat → List Transaction → List Transaction)
    (now : GoTime) (tbl : Table)
    (hsub : ∀ i r l, unproc i r l ⊆ l)
    (hkeys : (txs.map (prepareTx now)).Pairwise (fun a b => ¬ sameKey a b)) :
    (∀ c ∈ chunksOf 25 txs, 0 < c.length ∧ c.length ≤ 25) ∧
    (chunksOf 25 txs).flatten = txs ∧
    (batchCreateTransactions unproc now tbl txs).logs.length ≤
      (chunksOf 25 txs).length ∧
    ((batchCreateTransactions unproc now tbl txs).ok = true →
      (batchCreateTransactions unproc now tbl txs).logs.length =
        (chunksOf 25 txs).length) ∧
    (∀ (i : Nat) (c : List Transaction) (tblIn : Table),
      0 < (batchWriteTransactions (unproc i) now tblIn c).2.submitted.length ∧
      (batchWriteTransactions (unproc i) now tblIn c).2.submitted.length
        ≤ 3 ∧
      (∀ k, k <
          (batchWriteTransactions (unproc i) now tblIn c).2.submitted.length →
        (batchWriteTransactions (unproc i) now tblIn c).2.submitted[k]? =
          some (attemptChain (unproc i) (c.map (prepareTx now)) k)) ∧
      (∀ k, attemptChain (unproc i) (c.map (prepareTx now)) (k + 1) ⊆
        attemptChain (unproc i) (c.map (prepareTx now)) k) ∧
      (batchWriteTransactions (unproc i) now tblIn c).2.sleeps =
        (List.range
          ((batchWriteTransactions (unproc i) now tblIn
            c).2.submitted.length - 1)).map (fun r => (r + 1) * 100) ∧
      ((batchWriteTransactions (unproc i) now tblIn c).2.ok = false ↔
        ∀ k < 3,
          attemptChain (unproc i) (c.map (prepareTx now)) (k + 1) ≠ [])) ∧
    ((batchCreateTransactions unproc now tbl txs).ok = false →
      ∀ c ∈ (chunksOf 25 txs).take
        ((batchCreateTransactions unproc now tbl txs).logs.length - 1),
        ∀ x ∈ c, prepareTx now x ∈
          (batchCreateTransactions unproc now tbl txs).table) ∧
    (∀ u2 : Nat → Nat → List Transaction → List Transaction,
      (∀ i r l, u2 i r l = []) →
      (batchCreateTransactions u2 now tbl txs).ok = true) ∧
    (∀ (tbl2 : Table) (t : Transaction),
      (∃ r ∈ tbl2, r.PK = t.generateKeys.PK ∧ r.SK = t.generateKeys.SK) →
      createTransaction tbl2 t =
        Except.error "failed to create transaction") := by
  have hcs : ∀ c ∈ chunksOf 25 txs, ∀ x ∈ c,
      prepareTx now x ∈ txs.map (prepareTx now) := by
    intro c hc x hx
    have hmem : x ∈ (chunksOf 25 txs).flatten := List.mem_flatten.mpr ⟨c, hc, hx⟩
    rw [chunksOf_flatten] at hmem
    exact List.mem_map_of_mem _ hmem
  refine ⟨chunksOf_size 25 (by norm_num) txs, chunksOf_flatten 25 txs,
    (batchChunkLoop_logs_length unproc now (chunksOf 25 txs) 0 tbl).1,
    (batchChunkLoop_logs_length unproc now (chunksOf 25 txs) 0 tbl).2,
    ?_, ?_, ?_, ?_⟩
  · intro i c tblIn
    obtain ⟨ha, hb, hchain, hsleeps, hiff⟩ :=
      batchWriteLoop3_log (unproc i) tblIn (c.map (prepareTx now))
    exact ⟨ha, hb, hchain, fun k => hsub i k _, hsleeps, hiff⟩
  · intro hfail
    exact batchChunkLoop_committed unproc now (txs.map (prepareTx now)) hsub
      hkeys (chunksOf 25 txs) 0 tbl hcs hfail
  · intro u2 hall
    exact batchChunkLoop_all_processed now u2 hall (chunksOf 25 txs) 0 tbl
  · intro tbl2 t ht
    obtain ⟨r, hr, hPK, hSK⟩ := ht
    have hany : tbl2.any (fun x =>
        x.PK = t.generateKeys.PK ∧ x.SK = t.generateKeys.SK) = true :=
      List.any_eq_true.mpr ⟨r, hr, by simp [hPK, hSK]⟩
    simp [createTransaction, hany]
    exact ⟨r, hr, hPK, hSK⟩

/-- Witness for C4 at a concrete input, applying the claim theorem with
all hypotheses discharged (store processing everything, one transaction,
empty table). -/
theorem batchCreate_chunked_retry_witness :
    (chunksOf 25 [txFood50]).flatten = [txFood50] :=
  (batchCreate_chunked_retry [txFood50] (fun _ _ _ => []) txFood50.date []
      (fun _ _ l => List.nil_subset l) (by simp)).2.1

end Stori
